/-
Verification of the orca-sdk client engine against its specification.

Shallow embedding conventions used throughout this file:
* Rust `u64`/`u128`/`usize` values are embedded as `Nat`; wrap/saturate
  points are made explicit where the source has them.
* Rust `f64` prices are embedded as exact rationals (`ℚ`).  The candle
  aggregation only applies `max`, `min` and copying to prices, operations
  that are exact in IEEE-754, so the rational model is faithful there.
  For the quote engine, where `f64` multiplication/division/casting
  occur, a dedicated value domain (`FQ`) models the nonnegative `f64`
  results including infinity and NaN; every concrete input evaluated in
  this file makes the finite arithmetic exact (powers of two and small
  decimals), which is noted at each use.
* Byte buffers are `List (Fin 256)`; a Rust slice-index panic is modelled
  by an `Option` layer (`none` = panic).
* RPC fetches are external collaborators: functions that consume their
  results take those results (or an attempt-indexed oracle) as arguments.
-/
import Mathlib

/-! ## Price history and candle aggregation (src/price.rs) -/

/-- Embeds `PriceData` (src/monitoring.rs): one reconstructed price point. -/
structure PriceData where
  timestamp : Nat
  price : ℚ
  liquidity : Nat
deriving DecidableEq, Repr

/-- Embeds `Kline` (src/price.rs): one OHLCV candle.  The Rust field `open`
is a Lean keyword and is embedded as `open_`; `volume` is an `f64` event
count in the source (`1.0`, incremented by `1.0`), embedded as `Nat`
(exact: IEEE-754 represents such small integer counts exactly). -/
@[ext] structure Kline where
  timestamp : Nat
  open_ : ℚ
  high : ℚ
  low : ℚ
  close : ℚ
  volume : Nat
deriving DecidableEq, Repr

/-- `timestamp / timeframe_seconds * timeframe_seconds` (src/price.rs:368,371). -/
def bucketStart (timeframeSeconds ts : Nat) : Nat :=
  ts / timeframeSeconds * timeframeSeconds

/-- The `else if let Some(ref mut kline)` arm of the aggregation loop
(src/price.rs:388-393): absorb one more point into the open candle. -/
def updateKline (k : Kline) (p : PriceData) : Kline :=
  { k with
    high := max k.high p.price
    low := min k.low p.price
    close := p.price
    volume := k.volume + 1 }

/-- The candle opened at a bucket boundary (src/price.rs:380-387). -/
def newKline (tfs : Nat) (p : PriceData) : Kline :=
  { timestamp := bucketStart tfs p.timestamp
    open_ := p.price
    high := p.price
    low := p.price
    close := p.price
    volume := 1 }

/-- The `for price_data in sorted_history` loop of `try_get_kline_data`
(src/price.rs:370-397), including the trailing
`if let Some(kline) = current_kline { klines.push(kline) }`.
State: remaining points, `current_timeframe_start`, `current_kline`,
accumulated `klines`.  A closed candle is pushed at a bucket boundary and
the loop breaks once `klines.len() >= limit` (the closed candle having
been `take`n, no trailing push happens after a break). -/
def klineLoop (tfs limit : Nat) :
    List PriceData → Nat → Option Kline → List Kline → List Kline
  | [], _, cur, acc => acc ++ cur.toList
  | p :: rest, curStart, cur, acc =>
    let ts := bucketStart tfs p.timestamp
    if ts ≠ curStart then
      match cur with
      | some k =>
        if limit ≤ acc.length + 1 then acc ++ [k]
        else klineLoop tfs limit rest ts (some (newKline tfs p)) (acc ++ [k])
      | none => klineLoop tfs limit rest ts (some (newKline tfs p)) acc
    else
      match cur with
      | some k => klineLoop tfs limit rest curStart (some (updateKline k p)) acc
      | none => klineLoop tfs limit rest curStart none acc

/-- Ascending-timestamp comparison used by `sort_by` (src/price.rs:364). -/
def tsLe (a b : PriceData) : Prop := a.timestamp ≤ b.timestamp

instance : DecidableRel tsLe := fun a b => Nat.decLe a.timestamp b.timestamp

instance : IsTotal PriceData tsLe := ⟨fun a b => Nat.le_total a.timestamp b.timestamp⟩

instance : IsTrans PriceData tsLe := ⟨fun _ _ _ h h' => Nat.le_trans h h'⟩

/-- Embeds `try_get_kline_data` (src/price.rs:349-399) after the RPC fetch:
the argument `price_history` is the result of
`get_price_history_from_chain` (an external collaborator).  Empty history
returns no candles; otherwise the history is stably sorted by ascending
timestamp (Rust's `sort_by` is stable, as is insertion sort) and folded by
`klineLoop` starting from the first point's bucket with no open candle. -/
def try_get_kline_data (price_history : List PriceData)
    (timeframe_minutes limit : Nat) : List Kline :=
  match List.insertionSort tsLe price_history with
  | [] => []
  | p0 :: rest =>
    let tfs := timeframe_minutes * 60
    klineLoop tfs limit (p0 :: rest) (bucketStart tfs p0.timestamp) none []

/-! ### Reference aggregation, stated from the spec's words
(spec §4.5: bucket start = `floor(timestamp/(timeframe_minutes*60)) *
(timeframe_minutes*60)`; candle: open = first point's price, high/low =
running max/min, close = last point's price, volume = count of points). -/

/-- Whether a point falls in the bucket starting at `t`. -/
def inBucket (tfs t : Nat) (p : PriceData) : Bool :=
  bucketStart tfs p.timestamp == t

/-- Maximal consecutive runs of points sharing one bucket, each run kept as
(first point, remaining points of the run). -/
def bucketRuns (tfs : Nat) : List PriceData → List (PriceData × List PriceData)
  | [] => []
  | p :: rest =>
    (p, rest.takeWhile (inBucket tfs (bucketStart tfs p.timestamp))) ::
      bucketRuns tfs (rest.dropWhile (inBucket tfs (bucketStart tfs p.timestamp)))
termination_by l => l.length
decreasing_by
  simpa using Nat.lt_succ_of_le
    (List.Sublist.length_le (List.dropWhile_sublist _))

/-- The candle the spec prescribes for one bucket run: open = first point's
price, high/low = max/min over the run, close = last point's price,
volume = number of points. -/
def runKline (tfs : Nat) (p : PriceData) (run : List PriceData) : Kline :=
  { timestamp := bucketStart tfs p.timestamp
    open_ := p.price
    high := run.foldl (fun a q => max a q.price) p.price
    low := run.foldl (fun a q => min a q.price) p.price
    close := (run.getLastD p).price
    volume := run.length + 1 }

/-- Continuation-style reference for the aggregation loop once a candle is
open: the open candle, then one candle per following run, cut off by the
remaining budget. -/
def refCont (tfs : Nat) : Kline → List (PriceData × List PriceData) → Nat → List Kline
  | k, [], _ => [k]
  | k, (p, r) :: runs, b =>
    if b ≤ 1 then [k] else k :: refCont tfs (runKline tfs p r) runs (b - 1)

/-! ### Candle well-formedness invariants (claim C9) -/

/-! ## Pool state codec and quote engine (src/pool.rs) -/

/-- `u64::MAX`, the saturation point of Rust's `as u64` cast from `f64`. -/
def U64MAX : Nat := 2 ^ 64 - 1

/-- Value domain for the quote engine's `f64` computations: NaN, +infinity,
or a finite value modelled as an exact rational.  All finite operands
arising in src/pool.rs are nonnegative (they come from unsigned integers),
so negative infinities cannot arise.  Finite arithmetic is modelled
exactly (no rounding); every concrete input evaluated in this file keeps
the genuine `f64` computation exact as well (powers of two and small
integers), and general statements proved over `FQ` (monotonicity, bounds,
`min`-clamping) are rounding-robust. -/
inductive FQ where
  | nan : FQ
  | inf : FQ
  | fin : ℚ → FQ
deriving DecidableEq, Repr

/-- `f64` multiplication on nonnegative operands: NaN propagates,
`inf * 0 = NaN`, `inf * positive = inf`. -/
def FQ.mul : FQ → FQ → FQ
  | .nan, _ => .nan
  | _, .nan => .nan
  | .inf, .inf => .inf
  | .inf, .fin q => if q = 0 then .nan else .inf
  | .fin q, .inf => if q = 0 then .nan else .inf
  | .fin a, .fin b => .fin (a * b)

/-- `f64` division on nonnegative operands: NaN propagates,
`inf/inf = NaN`, `x/0 = inf` for positive `x`, `0/0 = NaN`,
`finite/inf = 0`. -/
def FQ.div : FQ → FQ → FQ
  | .nan, _ => .nan
  | _, .nan => .nan
  | .inf, .inf => .nan
  | .inf, .fin _ => .inf
  | .fin _, .inf => .fin 0
  | .fin a, .fin b => if b = 0 then (if a = 0 then .nan else .inf) else .fin (a / b)

/-- Rust's `as u64` cast from `f64`: NaN maps to 0, the cast truncates
toward zero and saturates at the bounds of `u64` (`Nat.floor` is 0 on all
negative rationals, matching the lower saturation). -/
def FQ.toU64 : FQ → Nat
  | .nan => 0
  | .inf => U64MAX
  | .fin q => min ⌊q⌋₊ U64MAX

/-- Embeds `PoolInfo` (src/pool.rs:10-26).  Token mints are kept as their
raw 32-byte values (the source converts them to base58 strings; that
encoding is injective, so string equality coincides with byte equality).
Derived addresses and the pool address are abstract (`Nat`): PDA
derivation (`find_program_address`) is an external deterministic
collaborator. -/
structure PoolInfo where
  address : Nat
  token_mint_a : List (Fin 256)
  token_mint_b : List (Fin 256)
  token_vault_a : Nat
  token_vault_b : Nat
  lp_token_mint : Nat
  fee_account : Nat
  trade_fee_numerator : Nat
  trade_fee_denominator : Nat
  tick_spacing : Nat
  liquidity : Nat
  sqrt_price : Nat
  fee_growth_global_a : Nat
  fee_growth_global_b : Nat
deriving DecidableEq, Repr

/-- Embeds `QuoteResult` (src/pool.rs:28-35); `price_impact` is the only
field kept as a rational (`f64` in the source). -/
structure QuoteResult where
  input_amount : Nat
  output_amount : Nat
  min_output_amount : Nat
  price_impact : ℚ
  fee_amount : Nat
deriving DecidableEq, Repr

/-- Extract the payload of an `Ok`, with a default for `Err` (used only to
state closed evaluation facts). -/
def okD {E A : Type} (d : A) : Except E A → A
  | .ok a => a
  | .error _ => d

def defaultQuote : QuoteResult :=
  { input_amount := 0, output_amount := 0, min_output_amount := 0,
    price_impact := 0, fee_amount := 0 }

/-- Embeds `calculate_price_impact` (src/pool.rs:375-384):
`(input_amount as f64 / liquidity as f64 * 100.0).min(100.0)`.
Rust's `f64::min` returns the other operand when one side is NaN, so both
the NaN case (`0/0`, liquidity = 0 = input) and the infinity case
(positive input, liquidity = 0) clamp to 100. -/
def calculate_price_impact (pool : PoolInfo) (input_amount : Nat)
    (_is_input_a : Bool) : ℚ :=
  let liquidity : FQ := .fin (pool.liquidity : ℚ)
  match ((FQ.fin (input_amount : ℚ)).div liquidity).mul (.fin 100) with
  | .nan => 100
  | .inf => 100
  | .fin q => min q 100

/-- Embeds `calculate_quote_from_pool_state` (src/pool.rs:342-373).
`is_input_a` is `input_mint == pool.token_mint_a` (string comparison in
the source, byte comparison here).  The function returns `Ok`
unconditionally — there is no error path for a zero or degenerate price. -/
def calculate_quote_from_pool_state (pool : PoolInfo)
    (input_mint _output_mint : List (Fin 256)) (input_amount : Nat)
    (slippage : ℚ) : Except String QuoteResult :=
  let is_input_a : Bool := input_mint == pool.token_mint_a
  let sqrt_price : FQ := .fin (pool.sqrt_price : ℚ)
  let scale_factor : FQ := .fin ((2 : ℚ) ^ 64)
  let price := (sqrt_price.mul sqrt_price).div scale_factor
  let output_amount :=
    if is_input_a then ((FQ.fin (input_amount : ℚ)).mul price).toU64
    else ((FQ.fin (input_amount : ℚ)).div price).toU64
  let fee_amount := ((FQ.fin (input_amount : ℚ)).mul
    ((FQ.fin (pool.trade_fee_numerator : ℚ)).div
      (.fin (pool.trade_fee_denominator : ℚ)))).toU64
  let min_output_amount :=
    ((FQ.fin (output_amount : ℚ)).mul (.fin (1 - slippage / 100))).toU64
  let price_impact := calculate_price_impact pool input_amount is_input_a
  .ok { input_amount := input_amount, output_amount := output_amount,
        min_output_amount := min_output_amount, price_impact := price_impact,
        fee_amount := fee_amount }

/-- Embeds `derive_price_from_pool_state` (src/pool.rs:386-399):
`price = sqrt_price^2 / 2^64`, returned as-is for the token-A side and as
`1.0 / price` otherwise; always `Ok`. -/
def derive_price_from_pool_state (pool : PoolInfo)
    (base_mint : List (Fin 256)) : Except String FQ :=
  let sqrt_price : FQ := .fin (pool.sqrt_price : ℚ)
  let price := (sqrt_price.mul sqrt_price).div (.fin ((2 : ℚ) ^ 64))
  if base_mint == pool.token_mint_a then .ok price
  else .ok ((FQ.fin 1).div price)

def mintA0 : List (Fin 256) := List.replicate 32 0

def mintB0 : List (Fin 256) := List.replicate 32 1

/-- The spec §8 end-to-end scenario pool: `sqrt_price = 2^64`,
`liquidity = 1_000_000`. -/
def poolC2 : PoolInfo :=
  { address := 0, token_mint_a := mintA0, token_mint_b := mintB0,
    token_vault_a := 0, token_vault_b := 0, lp_token_mint := 0,
    fee_account := 0, trade_fee_numerator := 0,
    trade_fee_denominator := 1000000, tick_spacing := 64,
    liquidity := 1000000, sqrt_price := 2 ^ 64,
    fee_growth_global_a := 0, fee_growth_global_b := 0 }

/-- The C3 failing pool: `sqrt_price = 0`, so the derived price is `0.0`
and a token-B-side input divides by zero. -/
def poolC3 : PoolInfo := { poolC2 with sqrt_price := 0 }

/-! ## Whirlpool account decoding (src/pool.rs:61-133) -/

/-- Rust slice `data[off..off+len]`: `some` of the bytes when in range,
`none` when the slice would panic. -/
def readBytes (data : List (Fin 256)) (off len : Nat) : Option (List (Fin 256)) :=
  if off + len ≤ data.length then some ((data.drop off).take len) else none

/-- Little-endian value of a byte string (`uN::from_le_bytes`). -/
def leVal (bs : List (Fin 256)) : Nat :=
  bs.foldr (fun b acc => b.val + 256 * acc) 0

/-- Modelled from the spec: the numeric `WHIRLPOOL_*_OFFSET` constants that
`parse_whirlpool_account_data` reads from `crate::global` are declared in
a module that is not among the sources (src/global.rs does not define
them), so the offsets are parameters here. -/
structure WhirlpoolOffsets where
  mintA : Nat
  mintB : Nat
  tickSpacing : Nat
  feeRate : Nat
  liquidity : Nat
  sqrtPrice : Nat
deriving DecidableEq, Repr

/-- Modelled from the spec (§3 data model: the 300-byte minimum buffer
length is "the minimum length required to contain all fixed fields"):
every fixed field lies inside the first 300 bytes. -/
def WhirlpoolOffsets.inRange (o : WhirlpoolOffsets) : Prop :=
  o.mintA + 32 ≤ 300 ∧ o.mintB + 32 ≤ 300 ∧ o.tickSpacing + 2 ≤ 300 ∧
    o.feeRate + 2 ≤ 300 ∧ o.liquidity + 16 ≤ 300 ∧ o.sqrtPrice + 16 ≤ 300

instance (o : WhirlpoolOffsets) : Decidable o.inRange := by
  unfold WhirlpoolOffsets.inRange
  infer_instance

/-- Embeds `parse_whirlpool_account_data` (src/pool.rs:61-133).
The result is `none` when the Rust code would panic (an out-of-range
slice), `some (.error _)` / `some (.ok _)` for the returned `Result`.
PDA derivation (`derive_token_vault_address` etc.) is an external
deterministic collaborator, passed as total functions; the pool address is
taken as an already-valid abstract address.  After the 300-byte length
check, the fixed fields are sliced at their offsets, and the fee-growth
fields are read opportunistically (guarded by the `data.len() >= 248` /
`>= 264` checks of src/pool.rs:107-116, whose slices are in bounds by
construction); `trade_fee_numerator` zero-extends the 16-bit `fee_rate`
and `trade_fee_denominator` is the constant `1_000_000`. -/
def parse_whirlpool_account_data (o : WhirlpoolOffsets)
    (derive_vault : List (Fin 256) → Nat → Nat) (derive_lp derive_fee : Nat → Nat)
    (data : List (Fin 256)) (pool_address : Nat) :
    Option (Except String PoolInfo) :=
  if data.length < 300 then some (.error "Invalid whirlpool account data length")
  else
    (readBytes data o.mintA 32).bind fun ma =>
    (readBytes data o.mintB 32).bind fun mb =>
    (readBytes data o.tickSpacing 2).bind fun tk =>
    (readBytes data o.feeRate 2).bind fun fr =>
    (readBytes data o.liquidity 16).bind fun lq =>
    (readBytes data o.sqrtPrice 16).bind fun sq =>
    some (.ok
      { address := pool_address
        token_mint_a := ma
        token_mint_b := mb
        token_vault_a := derive_vault ma pool_address
        token_vault_b := derive_vault mb pool_address
        lp_token_mint := derive_lp pool_address
        fee_account := derive_fee pool_address
        trade_fee_numerator := leVal fr
        trade_fee_denominator := 1000000
        tick_spacing := leVal tk
        liquidity := leVal lq
        sqrt_price := leVal sq
        fee_growth_global_a :=
          if 248 ≤ data.length then leVal ((data.drop 232).take 16) else 0
        fee_growth_global_b :=
          if 264 ≤ data.length then leVal ((data.drop 248).take 16) else 0 })

/-! ## Instruction payloads (src/trade.rs:157-188, src/liquidity.rs:446-559) -/

/-- `to_le_bytes` for a `k`-byte little-endian encoding. -/
def leBytes : Nat → Nat → List (Fin 256)
  | 0, _ => []
  | k + 1, n => (n : Fin 256) :: leBytes k (n / 256)

/-- Payload of `build_swap_instruction` (src/trade.rs:180-182):
`vec![0x01]` then `input_amount.to_le_bytes()` then
`min_output_amount.to_le_bytes()`. -/
def build_swap_instruction_data (input_amount min_output_amount : Nat) : List (Fin 256) :=
  1 :: (leBytes 8 input_amount ++ leBytes 8 min_output_amount)

/-- Payload of `build_open_position_instruction` (src/liquidity.rs:465-467):
`vec![0x08]` then the two `i32` ticks little-endian (two's complement via
`% 2^32` on ℤ). -/
def build_open_position_instruction_data (lower_tick upper_tick : Int) : List (Fin 256) :=
  8 :: (leBytes 4 (lower_tick % 2 ^ 32).toNat ++ leBytes 4 (upper_tick % 2 ^ 32).toNat)

/-- Payload of `build_increase_liquidity_instruction`
(src/liquidity.rs:503-505): `vec![0x09]` then the two `u64` amounts. -/
def build_increase_liquidity_instruction_data (token_a_amount token_b_amount : Nat) :
    List (Fin 256) :=
  9 :: (leBytes 8 token_a_amount ++ leBytes 8 token_b_amount)

/-- Payload of `build_decrease_liquidity_instruction`
(src/liquidity.rs:529-530): `vec![0x0A]` then the `u64` liquidity amount. -/
def build_decrease_liquidity_instruction_data (liquidity_amount : Nat) : List (Fin 256) :=
  10 :: leBytes 8 liquidity_amount

/-- Payload of `build_close_position_instruction` (src/liquidity.rs:553):
`vec![0x0B]` alone. -/
def build_close_position_instruction_data : List (Fin 256) := [11]

/-! ## Kline fetch validation and retry (src/price.rs:308-347) -/

/-- `MAX_RETRIES` (src/price.rs:314). -/
def MAX_RETRIES : Nat := 3

/-- The retry `loop` of `get_kline_data_production` (src/price.rs:325-346).
`fetch i` is the outcome of the `(i+1)`-th call to `try_get_kline_data`
(an external RPC-backed collaborator, oracled by attempt index).
Returns the final result, the number of fetch attempts made, and the list
of backoff sleeps (in ms) in the order they were performed: on the failure
of attempt `retries` with `retries < MAX_RETRIES`, Rust increments
`retries` and sleeps `1000 * 2^(retries-1)` ms, i.e. `1000 * 2^old`. -/
def klineRetryLoop (fetch : Nat → Except String (List Kline)) (retries : Nat) :
    Except String (List Kline) × Nat × List Nat :=
  match fetch retries with
  | .ok v => (.ok v, retries + 1, [])
  | .error e =>
    if h : retries < MAX_RETRIES then
      let r := klineRetryLoop fetch (retries + 1)
      (r.1, r.2.1, (1000 * 2 ^ retries) :: r.2.2)
    else (.error e, retries + 1, [])
termination_by MAX_RETRIES + 1 - retries
decreasing_by
  simp only [MAX_RETRIES] at h ⊢
  omega

/-- Embeds `get_kline_data_production` (src/price.rs:308-347): the
timeframe bound `[1, 1440]` is checked first, then `limit ≤ 500`, both
before any fetch; then the bounded-retry loop runs from `retries = 0`.
An `Ok` result (empty or not) returns immediately — emptiness only logs. -/
def get_kline_data_production (fetch : Nat → Except String (List Kline))
    (timeframe_minutes limit : Nat) :
    Except String (List Kline) × Nat × List Nat :=
  if timeframe_minutes = 0 ∨ 1440 < timeframe_minutes then
    (.error "Invalid timeframe: must be between 1 and 1440 minutes", 0, [])
  else if 500 < limit then
    (.error "Limit too large: maximum 500 candles", 0, [])
  else klineRetryLoop fetch 0

/-! ## Log amount extraction (src/monitoring.rs:201-255) -/

/-- The split class of `extract_amount_from_log` (src/monitoring.rs:203):
whitespace, `':'`, `'='` or `','`.  (Rust's `char::is_whitespace` is
Unicode; `Char.isWhitespace` agrees on the ASCII log text considered
here.) -/
def isSepChar (c : Char) : Bool :=
  c.isWhitespace || c == ':' || c == '=' || c == ','

/-- Rust `str::split` on `isSepChar`: consecutive separators produce empty
tokens, exactly as `split(..).collect::<Vec<&str>>()` does.  `cur` is the
reversed current token. -/
def splitWords : List Char → List Char → List (List Char)
  | [], cur => [cur.reverse]
  | c :: cs, cur =>
    if isSepChar c then cur.reverse :: splitWords cs [] else splitWords cs (c :: cur)

def leadsWith : List Char → List Char → Bool
  | [], _ => true
  | _ :: _, [] => false
  | p :: ps, c :: cs => p == c && leadsWith ps cs

/-- Substring containment (`str::contains`). -/
def containsSub (pat : List Char) : List Char → Bool
  | [] => leadsWith pat []
  | c :: cs => leadsWith pat (c :: cs) || containsSub pat cs

/-- The keyword test of src/monitoring.rs:207-212 on the lowercased word
(`to_lowercase` is Unicode in Rust; `Char.toLower` agrees on ASCII). -/
def containsKeyword (w : List Char) : Bool :=
  let lw := w.map Char.toLower
  containsSub "amount".toList lw || containsSub "input".toList lw ||
    containsSub "output".toList lw || containsSub "swap".toList lw ||
    containsSub "transfer".toList lw

/-- Embeds `parse_possible_number` (src/monitoring.rs:248-255): take the
ASCII-digit prefix; if nonempty, `parse::<u64>()`, which on an all-digit
string fails exactly when the value overflows `u64`. -/
def parse_possible_number (s : List Char) : Option Nat :=
  let cleaned := s.takeWhile (fun c => c.isDigit)
  if cleaned.isEmpty then none
  else
    let v := cleaned.foldl (fun acc c => 10 * acc + (c.toNat - 48)) 0
    if v < 2 ^ 64 then some v else none

/-- The inner window loop of src/monitoring.rs:213-219: first token among
the next (up to) three whose parsed number exceeds 100. -/
def firstWindowAmount : List (List Char) → Option Nat
  | [] => none
  | w :: ws =>
    match parse_possible_number w with
    | some a => if 100 < a then some a else firstWindowAmount ws
    | none => firstWindowAmount ws

/-- The outer token scan of `extract_amount_from_log`
(src/monitoring.rs:205-226): at each token, first the keyword-window check
(when the lowercased token contains a volume keyword), then the bare
in-range check `1000 < a < 1_000_000_000` on the token itself; first hit
wins, scanning left to right. -/
def scanWords : List (List Char) → Option Nat
  | [] => none
  | w :: rest =>
    match (if containsKeyword w then firstWindowAmount (rest.take 3) else none) with
    | some a => some a
    | none =>
      match parse_possible_number w with
      | some a => if 1000 < a ∧ a < 1000000000 then some a else scanWords rest
      | none => scanWords rest

/-- Embeds `extract_amount_from_log` (src/monitoring.rs:201-228). -/
def extract_amount_from_log (log : List Char) : Option Nat :=
  scanWords (splitWords log [])

/-- All keyword-adjacent candidate values (clause (a) of claim C8): numbers
above 100 parsed from one of the three tokens following a keyword token. -/
def kwWindowCandidates : List (List Char) → List Nat
  | [] => []
  | w :: rest =>
    (if containsKeyword w then
      ((rest.take 3).filterMap parse_possible_number).filter (fun a => 100 < a)
    else []) ++ kwWindowCandidates rest

/-- Keyword-window hit (clause (a) of claim C8): some token contains a
volume keyword and one of the next three tokens parses to a number above
100, that number being the value. -/
def kwWindowHit (ws : List (List Char)) (v : Nat) : Prop :=
  ∃ i w, ws.get? i = some w ∧ containsKeyword w = true ∧
    ∃ j u, i < j ∧ j ≤ i + 3 ∧ ws.get? j = some u ∧
      parse_possible_number u = some v ∧ 100 < v

/-- Bare-number hit (clause (b) of claim C8): some token parses to a number
strictly between 1000 and 1_000_000_000. -/
def bareHit (ws : List (List Char)) (v : Nat) : Prop :=
  ∃ w ∈ ws, parse_possible_number w = some v ∧ 1000 < v ∧ v < 1000000000

/-! ## Lemmas and theorems -/

example : bucketStart 60 125 = 120 := by decide
example : bucketRuns 60 [⟨0, 5, 0⟩, ⟨10, 6, 0⟩, ⟨60, 7, 0⟩] =
    [(⟨0, 5, 0⟩, [⟨10, 6, 0⟩]), (⟨60, 7, 0⟩, [])] := by
  rw [bucketRuns.eq_def]
  norm_num [inBucket, bucketStart]
  rw [bucketRuns.eq_def]
  norm_num [inBucket, bucketStart]
  rw [bucketRuns.eq_def]
example : try_get_kline_data [⟨0, 5, 0⟩, ⟨60, 7, 0⟩] 1 10 =
    [⟨60, 7, 7, 7, 7, 1⟩] := by decide
example : try_get_kline_data [⟨0, 5, 0⟩, ⟨10, 9, 0⟩] 1 10 = [] := by decide

@[simp] lemma bucketRuns_nil (tfs : Nat) : bucketRuns tfs [] = [] := by
  rw [bucketRuns.eq_def]

lemma bucketRuns_cons (tfs : Nat) (p : PriceData) (rest : List PriceData) :
    bucketRuns tfs (p :: rest) =
      (p, rest.takeWhile (inBucket tfs (bucketStart tfs p.timestamp))) ::
        bucketRuns tfs (rest.dropWhile (inBucket tfs (bucketStart tfs p.timestamp))) := by
  rw [bucketRuns.eq_def]

lemma foldl_updateKline_timestamp (run : List PriceData) (k : Kline) :
    (run.foldl updateKline k).timestamp = k.timestamp := by
  induction run generalizing k with
  | nil => rfl
  | cons q rest ih => simp [List.foldl_cons, ih, updateKline]

lemma foldl_updateKline_open (run : List PriceData) (k : Kline) :
    (run.foldl updateKline k).open_ = k.open_ := by
  induction run generalizing k with
  | nil => rfl
  | cons q rest ih => simp [List.foldl_cons, ih, updateKline]

lemma foldl_updateKline_high (run : List PriceData) (k : Kline) :
    (run.foldl updateKline k).high = run.foldl (fun a q => max a q.price) k.high := by
  induction run generalizing k with
  | nil => rfl
  | cons q rest ih => simp [List.foldl_cons, ih, updateKline]

lemma foldl_updateKline_low (run : List PriceData) (k : Kline) :
    (run.foldl updateKline k).low = run.foldl (fun a q => min a q.price) k.low := by
  induction run generalizing k with
  | nil => rfl
  | cons q rest ih => simp [List.foldl_cons, ih, updateKline]

lemma foldl_updateKline_close (run : List PriceData) (k : Kline) :
    (run.foldl updateKline k).close = run.foldl (fun _ q => q.price) k.close := by
  induction run generalizing k with
  | nil => rfl
  | cons q rest ih => simp [List.foldl_cons, ih, updateKline]

lemma foldl_updateKline_volume (run : List PriceData) (k : Kline) :
    (run.foldl updateKline k).volume = k.volume + run.length := by
  induction run generalizing k with
  | nil => rfl
  | cons q rest ih => simp [List.foldl_cons, ih, updateKline]; omega

lemma getLastD_price_foldl (run : List PriceData) (p : PriceData) :
    (run.getLastD p).price = run.foldl (fun _ q => q.price) p.price := by
  induction run generalizing p with
  | nil => rfl
  | cons q rest ih => rw [List.getLastD_cons, List.foldl_cons]; exact ih q

/-- Absorbing a whole bucket run into a freshly opened candle produces
exactly the spec's candle for that run. -/
lemma foldl_updateKline_newKline (tfs : Nat) (p : PriceData) (run : List PriceData) :
    run.foldl updateKline (newKline tfs p) = runKline tfs p run := by
  ext
  · exact (foldl_updateKline_timestamp run _).trans rfl
  · exact (foldl_updateKline_open run _).trans rfl
  · exact (foldl_updateKline_high run _).trans rfl
  · exact (foldl_updateKline_low run _).trans rfl
  · exact (foldl_updateKline_close run _).trans (getLastD_price_foldl run p).symm
  · simp [foldl_updateKline_volume, newKline, runKline, Nat.add_comm]

lemma refCont_eq_take (tfs : Nat) :
    ∀ (runs : List (PriceData × List PriceData)) (k : Kline) (b : Nat), 1 ≤ b →
      refCont tfs k runs b =
        (k :: runs.map (fun pr => runKline tfs pr.1 pr.2)).take b := by
  intro runs
  induction runs with
  | nil =>
    intro k b hb
    rcases Nat.exists_eq_succ_of_ne_zero (by omega : b ≠ 0) with ⟨b', rfl⟩
    simp [refCont]
  | cons pr runs ih =>
    intro k b hb
    rcases pr with ⟨p, r⟩
    by_cases h1 : b ≤ 1
    · have : b = 1 := by omega
      subst this
      simp [refCont]
    · rcases Nat.exists_eq_succ_of_ne_zero (by omega : b ≠ 0) with ⟨b', rfl⟩
      rw [refCont]
      simp only [if_neg h1, Nat.succ_sub_one, List.map_cons, List.take_succ_cons]
      rw [ih (runKline tfs p r) b' (by omega)]

lemma klineLoop_some (tfs limit : Nat) :
    ∀ (l : List PriceData) (s : Nat) (k : Kline) (acc : List Kline),
      acc.length + 1 ≤ max 1 limit → (limit = 0 → acc.length = 0) →
      klineLoop tfs limit l s (some k) acc =
        acc ++ refCont tfs ((l.takeWhile (inBucket tfs s)).foldl updateKline k)
          (bucketRuns tfs (l.dropWhile (inBucket tfs s)))
          (max 1 limit - acc.length) := by
  intro l
  induction l with
  | nil =>
    intro s k acc h1 h2
    simp [klineLoop, refCont]
  | cons p rest ih =>
    intro s k acc h1 h2
    by_cases hb : bucketStart tfs p.timestamp = s
    · have hpb : inBucket tfs s p = true := by simp [inBucket, hb]
      rw [klineLoop]
      simp only [hb, ne_eq, not_true_eq_false, if_false, List.takeWhile_cons,
        List.dropWhile_cons, hpb, if_true, List.foldl_cons]
      exact ih s (updateKline k p) acc h1 h2
    · have hpb : inBucket tfs s p = false := by simp [inBucket, hb]
      rw [klineLoop]
      simp only [ne_eq, hb, not_false_eq_true, if_true, List.takeWhile_cons,
        List.dropWhile_cons, hpb, Bool.false_eq_true, if_false, List.foldl_nil]
      rw [bucketRuns_cons]
      by_cases hl : limit ≤ acc.length + 1
      · have hb1 : max 1 limit - acc.length ≤ 1 := by omega
        simp only [hl, if_true, refCont, hb1]
      · have hb2 : ¬ (max 1 limit - acc.length ≤ 1) := by omega
        simp only [hl, if_false]
        rw [ih (bucketStart tfs p.timestamp) (newKline tfs p) (acc ++ [k])
          (by simp; omega) (by intro h0; omega)]
        rw [foldl_updateKline_newKline]
        rw [refCont]
        simp only [hb2, if_false]
        have hsub : max 1 limit - acc.length - 1 = max 1 limit - (acc ++ [k]).length := by
          simp; omega
        rw [← hsub]
        simp

lemma klineLoop_none (tfs limit : Nat) :
    ∀ (l : List PriceData) (s : Nat),
      klineLoop tfs limit l s none [] =
        ((bucketRuns tfs (l.dropWhile (inBucket tfs s))).map
          (fun pr => runKline tfs pr.1 pr.2)).take (max 1 limit) := by
  intro l
  induction l with
  | nil => intro s; simp [klineLoop]
  | cons p rest ih =>
    intro s
    by_cases hb : bucketStart tfs p.timestamp = s
    · have hpb : inBucket tfs s p = true := by simp [inBucket, hb]
      rw [klineLoop]
      simp only [hb, ne_eq, not_true_eq_false, if_false, List.dropWhile_cons, hpb, if_true]
      exact ih s
    · have hpb : inBucket tfs s p = false := by simp [inBucket, hb]
      rw [klineLoop]
      simp only [ne_eq, hb, not_false_eq_true, if_true, List.dropWhile_cons, hpb,
        Bool.false_eq_true, if_false]
      rw [klineLoop_some tfs limit rest (bucketStart tfs p.timestamp) (newKline tfs p) []
        (by simp) (by simp)]
      rw [foldl_updateKline_newKline]
      simp only [List.nil_append, List.length_nil, Nat.sub_zero]
      rw [refCont_eq_take tfs _ _ _ (le_max_left 1 limit)]
      rw [bucketRuns_cons]
      simp

/-- The aggregation of `try_get_kline_data`, characterized: sort the
history by ascending timestamp, split it into maximal consecutive runs of
points sharing one time bucket, DROP THE EARLIEST RUN (its points produce
no candle: the loop starts with `current_kline = None` and the
`else if let Some` arm silently skips every point of the first bucket),
build the spec's OHLCV candle for each remaining run, and keep the first
`max 1 limit` candles (a `limit` of `0` still lets one candle through,
because the break test runs only after a push). -/
theorem try_get_kline_data_characterization (hist : List PriceData) (tf limit : Nat) :
    try_get_kline_data hist tf limit =
      ((bucketRuns (tf * 60) (List.insertionSort tsLe hist)).tail.map
        (fun pr => runKline (tf * 60) pr.1 pr.2)).take (max 1 limit) := by
  rw [try_get_kline_data]
  cases h : List.insertionSort tsLe hist with
  | nil => simp
  | cons p0 rest =>
    dsimp only
    rw [klineLoop_none]
    rw [bucketRuns_cons]
    simp only [List.tail_cons, List.dropWhile_cons, inBucket, beq_self_eq_true, if_true]

/-- C1.  The claim is FALSE on the code: the aggregation loop starts with
`current_kline = None` while `current_timeframe_start` is already the first
point's bucket, so every point of the earliest bucket falls into the
`else if let Some(...)` arm with `None` and is silently discarded.
Concretely, for the two points (t=0, price=5) and (t=60, price=7) with
`timeframe_minutes = 1`, the point at t=0 lies in bucket 0, yet the output
contains no candle for bucket 0 — only the bucket-60 candle. -/
theorem try_get_kline_data_first_bucket_dropped :
    try_get_kline_data [⟨0, 5, 0⟩, ⟨60, 7, 0⟩] 1 10 = [⟨60, 7, 7, 7, 7, 1⟩] ∧
    ((try_get_kline_data [⟨0, 5, 0⟩, ⟨60, 7, 0⟩] 1 10).all
      (fun k => k.timestamp != bucketStart (1 * 60) 0)) = true := by
  constructor
  · decide
  · decide

/-- C1 (amended).  After sorting by ascending timestamp, each point is
assigned to the bucket `floor(timestamp/(timeframe_minutes*60)) *
(timeframe_minutes*60)`; the points of the EARLIEST bucket are discarded
(they produce no candle); every later maximal run of same-bucket points
produces one candle with open = first point's price, high/low = max/min of
the run's prices, close = last point's price, volume = the count of the
run's points; and the output is cut to the first `max 1 limit` candles. -/
theorem try_get_kline_data_aggregates_buckets (hist : List PriceData) (tf limit : Nat) :
    try_get_kline_data hist tf limit =
      ((bucketRuns (tf * 60) (List.insertionSort tsLe hist)).tail.map
        (fun pr => runKline (tf * 60) pr.1 pr.2)).take (max 1 limit) :=
  try_get_kline_data_characterization hist tf limit

lemma foldl_min_le_init (run : List PriceData) (i : ℚ) :
    run.foldl (fun a q => min a q.price) i ≤ i := by
  induction run generalizing i with
  | nil => exact le_refl i
  | cons q rest ih =>
    exact le_trans (ih (min i q.price)) (min_le_left _ _)

lemma foldl_min_le_mem (run : List PriceData) (i : ℚ) :
    ∀ x ∈ run, run.foldl (fun a q => min a q.price) i ≤ x.price := by
  induction run generalizing i with
  | nil => intro x hx; cases hx
  | cons q rest ih =>
    intro x hx
    rcases List.mem_cons.mp hx with h | h
    · subst h
      exact le_trans (foldl_min_le_init rest _) (min_le_right _ _)
    · exact ih (min i q.price) x h

lemma init_le_foldl_max (run : List PriceData) (i : ℚ) :
    i ≤ run.foldl (fun a q => max a q.price) i := by
  induction run generalizing i with
  | nil => exact le_refl i
  | cons q rest ih =>
    exact le_trans (le_max_left _ _) (ih (max i q.price))

lemma mem_le_foldl_max (run : List PriceData) (i : ℚ) :
    ∀ x ∈ run, x.price ≤ run.foldl (fun a q => max a q.price) i := by
  induction run generalizing i with
  | nil => intro x hx; cases hx
  | cons q rest ih =>
    intro x hx
    rcases List.mem_cons.mp hx with h | h
    · subst h
      exact le_trans (le_max_right _ _) (init_le_foldl_max rest _)
    · exact ih (max i q.price) x h

lemma getLastD_mem_cons' (run : List PriceData) (p : PriceData) :
    run.getLastD p ∈ p :: run := by
  induction run generalizing p with
  | nil => exact List.mem_singleton.mpr rfl
  | cons q rest ih =>
    rw [List.getLastD_cons]
    exact List.mem_cons_of_mem p (ih q)

lemma runKline_wellformed (tfs : Nat) (p : PriceData) (run : List PriceData) :
    (runKline tfs p run).low ≤ min (runKline tfs p run).open_ (runKline tfs p run).close ∧
    max (runKline tfs p run).open_ (runKline tfs p run).close ≤ (runKline tfs p run).high ∧
    1 ≤ (runKline tfs p run).volume ∧ tfs ∣ (runKline tfs p run).timestamp := by
  refine ⟨le_min ?_ ?_, max_le ?_ ?_, ?_, ?_⟩
  · exact foldl_min_le_init run p.price
  · rcases List.mem_cons.mp (getLastD_mem_cons' run p) with h | h
    · rw [runKline, h]
      exact foldl_min_le_init run p.price
    · exact foldl_min_le_mem run p.price _ h
  · exact init_le_foldl_max run p.price
  · rcases List.mem_cons.mp (getLastD_mem_cons' run p) with h | h
    · rw [runKline, h]
      exact init_le_foldl_max run p.price
    · exact mem_le_foldl_max run p.price _ h
  · exact Nat.le_add_left 1 run.length
  · exact Dvd.intro (p.timestamp / tfs) (Nat.mul_comm _ _)

lemma dropWhile_head_false (f : PriceData → Bool) :
    ∀ (l : List PriceData) (x : PriceData) (xs : List PriceData),
      l.dropWhile f = x :: xs → f x = false := by
  intro l
  induction l with
  | nil => intro x xs h; cases h
  | cons q rest ih =>
    intro x xs h
    rw [List.dropWhile_cons] at h
    by_cases hq : f q = true
    · rw [if_pos hq] at h
      exact ih x xs h
    · rw [if_neg hq] at h
      cases h
      exact Bool.not_eq_true _ |>.mp hq

lemma bucketStart_mono (tfs : Nat) {a b : Nat} (h : a ≤ b) :
    bucketStart tfs a ≤ bucketStart tfs b :=
  Nat.mul_le_mul_right tfs (Nat.div_le_div_right h)

lemma bucketRuns_chain (tfs : Nat) :
    ∀ (n : Nat) (l : List PriceData), l.length ≤ n → List.Pairwise tsLe l →
      List.Chain'
        (fun a b => bucketStart tfs a.1.timestamp < bucketStart tfs b.1.timestamp)
        (bucketRuns tfs l) := by
  intro n
  induction n with
  | zero =>
    intro l hl _
    rw [List.length_eq_zero.mp (Nat.le_zero.mp hl)]
    simp
  | succ m ih =>
    intro l hl hp
    cases l with
    | nil => simp
    | cons p rest =>
      rw [bucketRuns_cons]
      rw [List.chain'_cons']
      constructor
      · intro y hy
        cases hrest : rest.dropWhile (inBucket tfs (bucketStart tfs p.timestamp)) with
        | nil => rw [hrest] at hy; simp at hy
        | cons x xs =>
          rw [hrest, bucketRuns_cons] at hy
          simp only [List.head?_cons, Option.mem_def, Option.some.injEq] at hy
          have hxmem : x ∈ rest := by
            have : x ∈ rest.dropWhile (inBucket tfs (bucketStart tfs p.timestamp)) := by
              rw [hrest]; exact List.mem_cons_self x xs
            exact (List.dropWhile_sublist _).subset this
          have hle : p.timestamp ≤ x.timestamp :=
            List.rel_of_pairwise_cons hp hxmem
          have hne : inBucket tfs (bucketStart tfs p.timestamp) x = false :=
            dropWhile_head_false _ rest x xs hrest
          have hne' : bucketStart tfs x.timestamp ≠ bucketStart tfs p.timestamp := by
            simpa [inBucket] using hne
          have := lt_of_le_of_ne (bucketStart_mono tfs hle) (Ne.symm hne')
          rw [← hy]
          exact this
      · exact ih (rest.dropWhile _)
          (le_trans (List.dropWhile_sublist _).length_le
            (by simp only [List.length_cons] at hl; omega))
          (List.Pairwise.sublist (List.dropWhile_sublist _) hp.of_cons)

/-- C9.  Every candle returned by `try_get_kline_data` is well-formed:
`low ≤ min(open, close)`, `max(open, close) ≤ high`, `volume ≥ 1`, its
timestamp is a multiple of `timeframe_minutes*60`, and the timestamps of
successive candles are strictly increasing. -/
theorem try_get_kline_data_ohlcv_invariants (hist : List PriceData) (tf limit : Nat) :
    (∀ k ∈ try_get_kline_data hist tf limit,
      k.low ≤ min k.open_ k.close ∧ max k.open_ k.close ≤ k.high ∧
      1 ≤ k.volume ∧ (tf * 60) ∣ k.timestamp) ∧
    List.Chain' (fun a b => a.timestamp < b.timestamp)
      (try_get_kline_data hist tf limit) := by
  rw [try_get_kline_data_characterization]
  constructor
  · intro k hk
    have hk' := (List.take_subset _ _) hk
    rcases List.mem_map.mp hk' with ⟨pr, _, rfl⟩
    exact runKline_wellformed _ pr.1 pr.2
  · apply List.Chain'.take
    rw [List.chain'_map]
    have hchain := bucketRuns_chain (tf * 60) (List.insertionSort tsLe hist).length
      (List.insertionSort tsLe hist) le_rfl (List.sorted_insertionSort tsLe hist)
    exact hchain.tail

/-- Witness for C9 at a concrete history. -/
theorem try_get_kline_data_ohlcv_invariants_witness :
    (Kline.mk 60 7 7 7 7 1).low ≤
        min (Kline.mk 60 7 7 7 7 1).open_ (Kline.mk 60 7 7 7 7 1).close ∧
      max (Kline.mk 60 7 7 7 7 1).open_ (Kline.mk 60 7 7 7 7 1).close ≤
        (Kline.mk 60 7 7 7 7 1).high ∧
      1 ≤ (Kline.mk 60 7 7 7 7 1).volume ∧ (1 * 60) ∣ (Kline.mk 60 7 7 7 7 1).timestamp :=
  (try_get_kline_data_ohlcv_invariants [⟨0, 5, 0⟩, ⟨60, 7, 0⟩] 1 10).1
    (Kline.mk 60 7 7 7 7 1) (by decide)

example : derive_price_from_pool_state poolC2 mintA0 = .ok (.fin ((2 : ℚ) ^ 64)) := by
  simp only [derive_price_from_pool_state, poolC2, FQ.mul, FQ.div, beq_self_eq_true, if_true]
  norm_num
example :
    (okD defaultQuote
      (calculate_quote_from_pool_state poolC2 mintA0 mintB0 100000 (1 / 2))).output_amount =
      2 ^ 64 - 1 := by
  simp only [calculate_quote_from_pool_state, poolC2, FQ.mul, FQ.div, FQ.toU64,
    beq_self_eq_true, if_true, okD]
  norm_num [U64MAX]

/-- C2.  The claim is FALSE on the code: with `sqrt_price = 2^64` the
engine's single `2^64` divisor gives `price = (2^64)^2 / 2^64 = 2^64`,
not `1.0` (the Q64.64 convention would need a `2^128` divisor), so swapping
`input_amount = 100_000` of token A yields an `f64` product `100000 * 2^64`
whose `as u64` cast saturates to `u64::MAX = 2^64 - 1`, nowhere near the
claimed `≈ 100_000`.  (All the `f64` steps here are exact powers of two,
so the rational model coincides with the IEEE-754 run.) -/
theorem quote_scenario_c2_counterexample :
    derive_price_from_pool_state poolC2 mintA0 = .ok (.fin ((2 : ℚ) ^ 64)) ∧
    ((2 : ℚ) ^ 64 ≠ 1) ∧
    (okD defaultQuote
      (calculate_quote_from_pool_state poolC2 mintA0 mintB0 100000 (1 / 2))).output_amount =
      2 ^ 64 - 1 ∧
    (100000 : Nat) ≠ 2 ^ 64 - 1 := by
  refine ⟨?_, by norm_num, ?_, by norm_num⟩
  · simp only [derive_price_from_pool_state, poolC2, FQ.mul, FQ.div,
      beq_self_eq_true, if_true]
    norm_num
  · simp only [calculate_quote_from_pool_state, poolC2, FQ.mul, FQ.div, FQ.toU64,
      beq_self_eq_true, if_true, okD]
    norm_num [U64MAX]

/-- C2 (amended).  For the scenario pool (`sqrt_price = 2^64`,
`liquidity = 1_000_000`) and a swap of `input_amount = 100_000` of token A
at `slippage = 0.5`: the derived price is `2^64` (the single `2^64`
divisor is applied once after squaring), `output_amount` saturates to
`u64::MAX = 2^64 - 1`, `min_output_amount` exceeds `10^19` (nowhere near
`99_500`; the bound is robust to `f64` rounding), `price_impact = 10.0`
(the only part of the spec scenario the code satisfies, and exact in
`f64`), and `fee_amount = 0`. -/
theorem quote_scenario_c2_actual :
    derive_price_from_pool_state poolC2 mintA0 = .ok (.fin ((2 : ℚ) ^ 64)) ∧
    (okD defaultQuote
      (calculate_quote_from_pool_state poolC2 mintA0 mintB0 100000 (1 / 2))).output_amount =
      2 ^ 64 - 1 ∧
    10 ^ 19 <
      (okD defaultQuote
        (calculate_quote_from_pool_state poolC2 mintA0 mintB0 100000 (1 / 2))).min_output_amount ∧
    (okD defaultQuote
      (calculate_quote_from_pool_state poolC2 mintA0 mintB0 100000 (1 / 2))).price_impact = 10 ∧
    (okD defaultQuote
      (calculate_quote_from_pool_state poolC2 mintA0 mintB0 100000 (1 / 2))).fee_amount = 0 := by
  refine ⟨?_, ?_, ?_, ?_, ?_⟩
  · simp only [derive_price_from_pool_state, poolC2, FQ.mul, FQ.div,
      beq_self_eq_true, if_true]
    norm_num
  · simp only [calculate_quote_from_pool_state, poolC2, FQ.mul, FQ.div, FQ.toU64,
      beq_self_eq_true, if_true, okD]
    norm_num [U64MAX]
  · simp only [calculate_quote_from_pool_state, poolC2, FQ.mul, FQ.div, FQ.toU64,
      beq_self_eq_true, if_true, okD]
    norm_num [U64MAX]
    have h19 : (10000000000000000001 : Nat) ≤ ⌊(734180414133640154277 / 40 : ℚ)⌋₊ :=
      Nat.le_floor (by norm_num)
    omega
  · simp only [calculate_quote_from_pool_state, poolC2, calculate_price_impact,
      FQ.mul, FQ.div, FQ.toU64, beq_self_eq_true, if_true, okD]
    norm_num
  · simp only [calculate_quote_from_pool_state, poolC2, FQ.mul, FQ.div, FQ.toU64,
      beq_self_eq_true, if_true, okD]
    norm_num

/-- C3.  The code has no error path: `calculate_quote_from_pool_state`
returns `Ok` unconditionally (src/pool.rs:366), so for a pool with
`sqrt_price = 0` and the input on the token-B side the `f64` division
`input_amount / 0.0 = +inf` is silently saturated by `as u64` to
`u64::MAX` inside an `Ok` quote — the spec's required computation error is
never produced. -/
theorem quote_zero_price_returns_ok_saturated :
    (calculate_quote_from_pool_state poolC3 mintB0 mintA0 100000 (1 / 2)).isOk = true ∧
    (okD defaultQuote
      (calculate_quote_from_pool_state poolC3 mintB0 mintA0 100000 (1 / 2))).output_amount =
      U64MAX := by
  have hba : (mintB0 == mintA0) = false := by decide
  constructor
  · simp [calculate_quote_from_pool_state, Except.isOk, Except.toBool]
  · simp only [calculate_quote_from_pool_state, poolC3, poolC2, hba, FQ.mul, FQ.div,
      FQ.toU64, Bool.false_eq_true, if_false, okD]
    norm_num

lemma calculate_price_impact_liq_zero (pool : PoolInfo) (i : Nat) (b : Bool)
    (h : pool.liquidity = 0) : calculate_price_impact pool i b = 100 := by
  by_cases hi : i = 0
  · subst hi
    simp [calculate_price_impact, h, FQ.div, FQ.mul]
  · have hi' : ((i : ℚ)) ≠ 0 := Nat.cast_ne_zero.mpr hi
    simp [calculate_price_impact, h, FQ.div, FQ.mul, hi',
      (by norm_num : (100 : ℚ) ≠ 0)]

lemma calculate_price_impact_liq_pos (pool : PoolInfo) (i : Nat) (b : Bool)
    (h : pool.liquidity ≠ 0) :
    calculate_price_impact pool i b =
      min ((i : ℚ) / (pool.liquidity : ℚ) * 100) 100 := by
  have h' : (pool.liquidity : ℚ) ≠ 0 := Nat.cast_ne_zero.mpr h
  simp [calculate_price_impact, FQ.div, FQ.mul, h']

/-- C6.  Price impact: for nonzero liquidity it equals
`min(100, input/liquidity*100)`; it is monotonically non-decreasing in the
input amount for any fixed pool (including `liquidity = 0`, where the
`f64::min(NaN/inf, 100.0)` convention pins it at 100); and it never
exceeds 100. -/
theorem calculate_price_impact_spec :
    (∀ (pool : PoolInfo) (input : Nat) (b : Bool), pool.liquidity ≠ 0 →
      calculate_price_impact pool input b =
        min 100 ((input : ℚ) / (pool.liquidity : ℚ) * 100)) ∧
    (∀ (pool : PoolInfo) (b : Bool) (i1 i2 : Nat), i1 ≤ i2 →
      calculate_price_impact pool i1 b ≤ calculate_price_impact pool i2 b) ∧
    (∀ (pool : PoolInfo) (input : Nat) (b : Bool),
      calculate_price_impact pool input b ≤ 100) := by
  refine ⟨?_, ?_, ?_⟩
  · intro pool input b h
    rw [calculate_price_impact_liq_pos pool input b h, min_comm]
  · intro pool b i1 i2 h
    by_cases hl : pool.liquidity = 0
    · rw [calculate_price_impact_liq_zero pool i1 b hl,
        calculate_price_impact_liq_zero pool i2 b hl]
    · rw [calculate_price_impact_liq_pos pool i1 b hl,
        calculate_price_impact_liq_pos pool i2 b hl]
      have hpos : (0 : ℚ) < (pool.liquidity : ℚ) := by
        exact_mod_cast Nat.pos_of_ne_zero hl
      refine min_le_min ?_ le_rfl
      refine mul_le_mul_of_nonneg_right ?_ (by norm_num)
      exact (div_le_div_iff_of_pos_right hpos).mpr (by exact_mod_cast h)
  · intro pool input b
    by_cases hl : pool.liquidity = 0
    · rw [calculate_price_impact_liq_zero pool input b hl]
    · rw [calculate_price_impact_liq_pos pool input b hl]
      exact min_le_right _ _

/-- Witness for C6 at concrete pools and amounts. -/
theorem calculate_price_impact_spec_witness :
    calculate_price_impact poolC2 100000 true =
      min 100 ((100000 : ℚ) / (poolC2.liquidity : ℚ) * 100) ∧
    calculate_price_impact poolC2 1 true ≤ calculate_price_impact poolC2 2 true ∧
    calculate_price_impact poolC2 100000 true ≤ 100 :=
  ⟨calculate_price_impact_spec.1 poolC2 100000 true (by norm_num [poolC2]),
    calculate_price_impact_spec.2.1 poolC2 true 1 2 (by norm_num),
    calculate_price_impact_spec.2.2 poolC2 100000 true⟩

lemma leVal_lt (bs : List (Fin 256)) : leVal bs < 256 ^ bs.length := by
  induction bs with
  | nil => simp [leVal]
  | cons b rest ih =>
    have hb : b.val < 256 := b.isLt
    have step : leVal (b :: rest) = b.val + 256 * leVal rest := rfl
    calc leVal (b :: rest) = b.val + 256 * leVal rest := step
      _ < 256 * (leVal rest + 1) := by omega
      _ ≤ 256 * 256 ^ rest.length := Nat.mul_le_mul_left 256 ih
      _ = 256 ^ (rest.length + 1) := by rw [Nat.pow_succ, Nat.mul_comm]
      _ = 256 ^ (b :: rest).length := by simp

/-- C4.  Decoding a buffer shorter than 300 bytes always returns the
too-short error (never panics, since the length check precedes every
slice); and for any buffer of at least 300 bytes, with the fixed-field
offsets in range (as the spec's 300-byte minimum guarantees), every slice
is in bounds, the decode succeeds, and both fee-growth fields are actually
read (the buffer can always contain them, since `300 ≥ 264`, so the
zero defaults never fire). -/
theorem parse_whirlpool_account_data_safe :
    (∀ (o : WhirlpoolOffsets) (dv : List (Fin 256) → Nat → Nat) (dl df : Nat → Nat)
      (data : List (Fin 256)) (addr : Nat), data.length < 300 →
      parse_whirlpool_account_data o dv dl df data addr =
        some (.error "Invalid whirlpool account data length")) ∧
    (∀ (o : WhirlpoolOffsets) (dv : List (Fin 256) → Nat → Nat) (dl df : Nat → Nat)
      (data : List (Fin 256)) (addr : Nat), o.inRange → 300 ≤ data.length →
      ∃ info : PoolInfo,
        parse_whirlpool_account_data o dv dl df data addr = some (.ok info) ∧
        info.fee_growth_global_a = leVal ((data.drop 232).take 16) ∧
        info.fee_growth_global_b = leVal ((data.drop 248).take 16)) := by
  constructor
  · intro o dv dl df data addr h
    rw [parse_whirlpool_account_data, if_pos h]
  · intro o dv dl df data addr hR hlen
    obtain ⟨h1, h2, h3, h4, h5, h6⟩ := hR
    rw [parse_whirlpool_account_data, if_neg (by omega)]
    rw [readBytes, if_pos (by omega), readBytes, if_pos (by omega),
      readBytes, if_pos (by omega), readBytes, if_pos (by omega),
      readBytes, if_pos (by omega), readBytes, if_pos (by omega)]
    simp only [Option.some_bind]
    rw [if_pos (show 248 ≤ data.length by omega),
      if_pos (show 264 ≤ data.length by omega)]
    exact ⟨_, rfl, rfl, rfl⟩

/-- Witness for C4: a 299-byte buffer errors, a 300-byte zero buffer
decodes, at plausible fixed-field offsets. -/
theorem parse_whirlpool_account_data_safe_witness :
    parse_whirlpool_account_data ⟨101, 181, 41, 45, 49, 65⟩ (fun _ _ => 0)
        (fun _ => 0) (fun _ => 0) (List.replicate 299 0) 0 =
      some (.error "Invalid whirlpool account data length") ∧
    ∃ info : PoolInfo,
      parse_whirlpool_account_data ⟨101, 181, 41, 45, 49, 65⟩ (fun _ _ => 0)
          (fun _ => 0) (fun _ => 0) (List.replicate 300 0) 0 = some (.ok info) ∧
      info.fee_growth_global_a = leVal (((List.replicate 300 0).drop 232).take 16) ∧
      info.fee_growth_global_b = leVal (((List.replicate 300 0).drop 248).take 16) :=
  ⟨parse_whirlpool_account_data_safe.1 ⟨101, 181, 41, 45, 49, 65⟩ (fun _ _ => 0)
      (fun _ => 0) (fun _ => 0) (List.replicate 299 0) 0
      (by norm_num [List.length_replicate]),
    parse_whirlpool_account_data_safe.2 ⟨101, 181, 41, 45, 49, 65⟩ (fun _ _ => 0)
      (fun _ => 0) (fun _ => 0) (List.replicate 300 0) 0
      ⟨by norm_num, by norm_num, by norm_num, by norm_num, by norm_num, by norm_num⟩
      (by norm_num [List.length_replicate])⟩

/-- C10.  Every successfully decoded pool state has
`trade_fee_denominator = 1_000_000` and `trade_fee_numerator ≤ 65535`
(the zero-extended 16-bit `fee_rate`), so the implied fee fraction is
strictly below `0.065536` whatever the buffer holds. -/
theorem parse_whirlpool_fee_bound (o : WhirlpoolOffsets)
    (dv : List (Fin 256) → Nat → Nat) (dl df : Nat → Nat)
    (data : List (Fin 256)) (addr : Nat) (info : PoolInfo)
    (h : parse_whirlpool_account_data o dv dl df data addr = some (.ok info)) :
    info.trade_fee_denominator = 1000000 ∧ info.trade_fee_numerator ≤ 65535 ∧
    (info.trade_fee_numerator : ℚ) / (info.trade_fee_denominator : ℚ) <
      65536 / 1000000 := by
  rw [parse_whirlpool_account_data] at h
  by_cases hlen : data.length < 300
  · rw [if_pos hlen] at h
    simp at h
  · rw [if_neg hlen] at h
    rcases Option.bind_eq_some.mp h with ⟨ma, hma, h⟩
    rcases Option.bind_eq_some.mp h with ⟨mb, hmb, h⟩
    rcases Option.bind_eq_some.mp h with ⟨tk, htk, h⟩
    rcases Option.bind_eq_some.mp h with ⟨fr, hfr, h⟩
    rcases Option.bind_eq_some.mp h with ⟨lq, hlq, h⟩
    rcases Option.bind_eq_some.mp h with ⟨sq, hsq, h⟩
    have hinfo : info.trade_fee_numerator = leVal fr ∧
        info.trade_fee_denominator = 1000000 := by
      simp only [Option.some_inj, Except.ok.injEq] at h
      rw [← h]
      exact ⟨rfl, rfl⟩
    have hfrlen : fr.length ≤ 2 := by
      rw [readBytes] at hfr
      by_cases hc : o.feeRate + 2 ≤ data.length
      · rw [if_pos hc] at hfr
        rcases Option.some_inj.mp hfr with rfl
        simp [List.length_take_le]
      · rw [if_neg hc] at hfr
        cases hfr
    have hnum : leVal fr < 65536 := by
      have := leVal_lt fr
      calc leVal fr < 256 ^ fr.length := this
        _ ≤ 256 ^ 2 := Nat.pow_le_pow_right (by norm_num) hfrlen
        _ = 65536 := by norm_num
    refine ⟨hinfo.2, by omega, ?_⟩
    rw [hinfo.1, hinfo.2]
    push_cast
    exact (div_lt_div_iff_of_pos_right (by norm_num)).mpr (by exact_mod_cast hnum)

/-- Witness for C10 on a concrete 300-byte buffer. -/
theorem parse_whirlpool_fee_bound_witness :
    ∃ info : PoolInfo,
      parse_whirlpool_account_data ⟨101, 181, 41, 45, 49, 65⟩ (fun _ _ => 0)
          (fun _ => 0) (fun _ => 0) (List.replicate 300 0) 0 = some (.ok info) ∧
      info.trade_fee_denominator = 1000000 ∧ info.trade_fee_numerator ≤ 65535 ∧
      (info.trade_fee_numerator : ℚ) / (info.trade_fee_denominator : ℚ) <
        65536 / 1000000 := by
  rcases parse_whirlpool_account_data_safe.2 ⟨101, 181, 41, 45, 49, 65⟩ (fun _ _ => 0)
      (fun _ => 0) (fun _ => 0) (List.replicate 300 0) 0
      ⟨by norm_num, by norm_num, by norm_num, by norm_num, by norm_num, by norm_num⟩
      (by norm_num [List.length_replicate]) with ⟨info, hinfo, -, -⟩
  exact ⟨info, hinfo,
    parse_whirlpool_fee_bound ⟨101, 181, 41, 45, 49, 65⟩ (fun _ _ => 0)
      (fun _ => 0) (fun _ => 0) (List.replicate 300 0) 0 info hinfo⟩

lemma leBytes_length (k n : Nat) : (leBytes k n).length = k := by
  induction k generalizing n with
  | zero => rfl
  | succ k ih => simp [leBytes, ih]

lemma leVal_leBytes (k n : Nat) : leVal (leBytes k n) = n % 256 ^ k := by
  induction k generalizing n with
  | zero => simp [leBytes, leVal, Nat.mod_one]
  | succ k ih =>
    have step : leVal (leBytes (k + 1) n) = ((n : Fin 256)).val + 256 * leVal (leBytes k (n / 256)) := rfl
    rw [step, ih, Fin.val_natCast n 256, pow_succ, Nat.mul_comm (256 ^ k) 256]
    exact Nat.mod_mul.symm

/-- C5.  The swap payload is exactly one discriminator byte (0x01) followed
by the two amounts as little-endian `u64`s, so splitting the 17-byte
payload reproduces the amounts exactly; and the five builders use five
pairwise-distinct discriminator bytes (0x01, 0x08, 0x09, 0x0A, 0x0B). -/
theorem build_swap_instruction_data_roundtrip (a b : Nat)
    (ha : a < 2 ^ 64) (hb : b < 2 ^ 64) :
    (build_swap_instruction_data a b).length = 17 ∧
    (build_swap_instruction_data a b).head? = some 1 ∧
    leVal (((build_swap_instruction_data a b).drop 1).take 8) = a ∧
    leVal (((build_swap_instruction_data a b).drop 9).take 8) = b ∧
    ([(build_swap_instruction_data a b).head?,
      (build_open_position_instruction_data 0 0).head?,
      (build_increase_liquidity_instruction_data 0 0).head?,
      (build_decrease_liquidity_instruction_data 0).head?,
      build_close_position_instruction_data.head?]).Nodup := by
  have h64 : (256 : Nat) ^ 8 = 2 ^ 64 := by norm_num
  have hdrop1 : (build_swap_instruction_data a b).drop 1 =
      leBytes 8 a ++ leBytes 8 b := rfl
  refine ⟨?_, rfl, ?_, ?_, ?_⟩
  · simp [build_swap_instruction_data, leBytes_length]
  · rw [hdrop1]
    have h1 := List.take_left (leBytes 8 a) (leBytes 8 b)
    rw [leBytes_length] at h1
    rw [h1, leVal_leBytes, h64]
    exact Nat.mod_eq_of_lt ha
  · have h2 := List.drop_left (leBytes 8 a) (leBytes 8 b)
    rw [leBytes_length] at h2
    have h3 : (build_swap_instruction_data a b).drop 9 = leBytes 8 b := by
      rw [show (9 : Nat) = 1 + 8 from rfl, ← List.drop_drop, hdrop1, h2]
    have ht : (leBytes 8 b).take 8 = leBytes 8 b :=
      List.take_of_length_le (by rw [leBytes_length])
    rw [h3, ht, leVal_leBytes, h64]
    exact Nat.mod_eq_of_lt hb
  · simp only [build_swap_instruction_data, build_open_position_instruction_data,
      build_increase_liquidity_instruction_data,
      build_decrease_liquidity_instruction_data,
      build_close_position_instruction_data, List.head?_cons]
    decide

/-- Witness for C5 at the spec's round-trip amounts. -/
theorem build_swap_instruction_data_roundtrip_witness :
    leVal (((build_swap_instruction_data 1000000 500000).drop 1).take 8) = 1000000 ∧
    leVal (((build_swap_instruction_data 1000000 500000).drop 9).take 8) = 500000 :=
  ⟨(build_swap_instruction_data_roundtrip 1000000 500000 (by norm_num) (by norm_num)).2.2.1,
    (build_swap_instruction_data_roundtrip 1000000 500000 (by norm_num) (by norm_num)).2.2.2.1⟩

lemma except_isOk_false {E A : Type} (x : Except E A) (h : x.isOk = false) :
    ∃ e, x = .error e := by
  cases x with
  | error e => exact ⟨e, rfl⟩
  | ok v => simp [Except.isOk, Except.toBool] at h

lemma klineRetryLoop_ok_at (fetch : Nat → Except String (List Kline))
    (r : Nat) (v : List Kline) (h : fetch r = .ok v) :
    klineRetryLoop fetch r = (.ok v, r + 1, []) := by
  rw [klineRetryLoop.eq_def, h]

lemma klineRetryLoop_error_step (fetch : Nat → Except String (List Kline))
    (r : Nat) (e : String) (hr : r < MAX_RETRIES) (h : fetch r = .error e) :
    klineRetryLoop fetch r =
      ((klineRetryLoop fetch (r + 1)).1, (klineRetryLoop fetch (r + 1)).2.1,
        (1000 * 2 ^ r) :: (klineRetryLoop fetch (r + 1)).2.2) := by
  rw [klineRetryLoop.eq_def, h]
  simp only [dif_pos hr]

lemma klineRetryLoop_error_last (fetch : Nat → Except String (List Kline))
    (r : Nat) (e : String) (hr : ¬ r < MAX_RETRIES) (h : fetch r = .error e) :
    klineRetryLoop fetch r = (.error e, r + 1, []) := by
  rw [klineRetryLoop.eq_def, h]
  simp only [dif_neg hr]

/-- C7.  `get_kline_data_production`: out-of-range `timeframe_minutes`
(0 or > 1440) or `limit > 500` return a validation error with zero fetch
attempts and no backoff sleeps; with in-range arguments, failures are
retried at most `MAX_RETRIES = 3` times with backoff sleeps 1000ms, 2000ms,
4000ms (doubling per attempt) — a success at attempt `k ≤ 3` after `k`
failures returns it after `k+1` attempts and the first `k` backoffs, while
four failures return the last error after 4 attempts; a successful fetch
(in particular an empty one) at the first attempt returns immediately with
no sleeps. -/
theorem get_kline_data_production_validation_and_retry :
    (∀ (fetch : Nat → Except String (List Kline)) (tf lim : Nat), tf = 0 ∨ 1440 < tf →
      get_kline_data_production fetch tf lim =
        (.error "Invalid timeframe: must be between 1 and 1440 minutes", 0, [])) ∧
    (∀ (fetch : Nat → Except String (List Kline)) (tf lim : Nat),
      1 ≤ tf → tf ≤ 1440 → 500 < lim →
      get_kline_data_production fetch tf lim =
        (.error "Limit too large: maximum 500 candles", 0, [])) ∧
    (∀ (fetch : Nat → Except String (List Kline)) (tf lim : Nat) (v : List Kline)
      (k : Nat), 1 ≤ tf → tf ≤ 1440 → lim ≤ 500 → k ≤ 3 →
      (∀ i, i < k → (fetch i).isOk = false) → fetch k = .ok v →
      get_kline_data_production fetch tf lim =
        (.ok v, k + 1, (List.range k).map (fun i => 1000 * 2 ^ i))) ∧
    (∀ (fetch : Nat → Except String (List Kline)) (tf lim : Nat) (e : Nat → String),
      1 ≤ tf → tf ≤ 1440 → lim ≤ 500 →
      (∀ i, i ≤ 3 → fetch i = .error (e i)) →
      get_kline_data_production fetch tf lim =
        (.error (e 3), 4, [1000, 2000, 4000])) := by
  have hvalid : ∀ (fetch : Nat → Except String (List Kline)) tf lim, 1 ≤ tf → tf ≤ 1440 →
      lim ≤ 500 → get_kline_data_production fetch tf lim = klineRetryLoop fetch 0 := by
    intro fetch tf lim h1 h2 h3
    rw [get_kline_data_production, if_neg (by omega), if_neg (by omega)]
  refine ⟨?_, ?_, ?_, ?_⟩
  · intro fetch tf lim h
    rw [get_kline_data_production, if_pos h]
  · intro fetch tf lim h1 h2 h3
    rw [get_kline_data_production, if_neg (by omega), if_pos h3]
  · intro fetch tf lim v k h1 h2 h3 hk hfail hok
    rw [hvalid fetch tf lim h1 h2 h3]
    interval_cases k
    · rw [klineRetryLoop_ok_at fetch 0 v hok]
      simp
    · obtain ⟨e0, he0⟩ := except_isOk_false _ (hfail 0 (by omega))
      rw [klineRetryLoop_error_step fetch 0 e0 (by norm_num [MAX_RETRIES]) he0,
        klineRetryLoop_ok_at fetch 1 v hok]
      simp [List.range_succ]
    · obtain ⟨e0, he0⟩ := except_isOk_false _ (hfail 0 (by omega))
      obtain ⟨e1, he1⟩ := except_isOk_false _ (hfail 1 (by omega))
      rw [klineRetryLoop_error_step fetch 0 e0 (by norm_num [MAX_RETRIES]) he0,
        klineRetryLoop_error_step fetch 1 e1 (by norm_num [MAX_RETRIES]) he1,
        klineRetryLoop_ok_at fetch 2 v hok]
      simp [List.range_succ]
    · obtain ⟨e0, he0⟩ := except_isOk_false _ (hfail 0 (by omega))
      obtain ⟨e1, he1⟩ := except_isOk_false _ (hfail 1 (by omega))
      obtain ⟨e2, he2⟩ := except_isOk_false _ (hfail 2 (by omega))
      rw [klineRetryLoop_error_step fetch 0 e0 (by norm_num [MAX_RETRIES]) he0,
        klineRetryLoop_error_step fetch 1 e1 (by norm_num [MAX_RETRIES]) he1,
        klineRetryLoop_error_step fetch 2 e2 (by norm_num [MAX_RETRIES]) he2,
        klineRetryLoop_ok_at fetch 3 v hok]
      simp [List.range_succ]
  · intro fetch tf lim e h1 h2 h3 hfail
    rw [hvalid fetch tf lim h1 h2 h3]
    rw [klineRetryLoop_error_step fetch 0 (e 0) (by norm_num [MAX_RETRIES]) (hfail 0 (by omega)),
      klineRetryLoop_error_step fetch 1 (e 1) (by norm_num [MAX_RETRIES]) (hfail 1 (by omega)),
      klineRetryLoop_error_step fetch 2 (e 2) (by norm_num [MAX_RETRIES]) (hfail 2 (by omega)),
      klineRetryLoop_error_last fetch 3 (e 3) (by norm_num [MAX_RETRIES]) (hfail 3 (by omega))]
    norm_num

/-- Witness for C7: validation failures at `timeframe_minutes = 0` and
`limit = 501`, a first-attempt empty success, and a full retry exhaustion,
all at concrete oracles. -/
theorem get_kline_data_production_validation_and_retry_witness :
    get_kline_data_production (fun _ => .ok []) 0 10 =
      (.error "Invalid timeframe: must be between 1 and 1440 minutes", 0, []) ∧
    get_kline_data_production (fun _ => .ok []) 60 501 =
      (.error "Limit too large: maximum 500 candles", 0, []) ∧
    get_kline_data_production (fun _ => .ok []) 60 100 = (.ok [], 1, []) ∧
    get_kline_data_production (fun _ => .error "boom") 60 100 =
      (.error "boom", 4, [1000, 2000, 4000]) :=
  ⟨get_kline_data_production_validation_and_retry.1 (fun _ => .ok []) 0 10 (Or.inl rfl),
    get_kline_data_production_validation_and_retry.2.1 (fun _ => .ok []) 60 501
      (by norm_num) (by norm_num) (by norm_num),
    by
      have := get_kline_data_production_validation_and_retry.2.2.1 (fun _ => .ok []) 60 100
        [] 0 (by norm_num) (by norm_num) (by norm_num) (by norm_num)
        (fun i hi => absurd hi (by omega)) rfl
      simpa using this,
    get_kline_data_production_validation_and_retry.2.2.2 (fun _ => .error "boom") 60 100
      (fun _ => "boom") (by norm_num) (by norm_num) (by norm_num) (fun i _ => rfl)⟩

example : parse_possible_number "123abc".toList = some 123 := by decide
example : parse_possible_number "abc".toList = none := by decide
example : extract_amount_from_log "amount: 1500000".toList = some 1500000 := by decide
example : extract_amount_from_log "5000 amount 200".toList = some 5000 := by decide
example : kwWindowCandidates (splitWords "5000 amount 200".toList []) = [200] := by decide

/-- C8.  The claim's preference clause is FALSE on the code: the scan is a
single left-to-right pass, so in `"5000 amount 200"` the bare in-range
token `5000` (at position 0) is returned even though the keyword-adjacent
candidate `200` (after `"amount"`) exists — the keyword-adjacent candidate
is NOT preferred over an earlier bare in-range number. -/
theorem extract_amount_prefers_earlier_bare_number :
    extract_amount_from_log "5000 amount 200".toList = some 5000 ∧
    kwWindowCandidates (splitWords "5000 amount 200".toList []) = [200] ∧
    (5000 : Nat) ∉ ([200] : List Nat) := by
  refine ⟨by decide, by decide, by decide⟩

lemma firstWindowAmount_sound (l : List (List Char)) (v : Nat)
    (h : firstWindowAmount l = some v) :
    ∃ j u, l.get? j = some u ∧ parse_possible_number u = some v ∧ 100 < v := by
  induction l with
  | nil => cases h
  | cons w ws ih =>
    rw [firstWindowAmount] at h
    split at h
    next a hp =>
      split at h
      next h100 =>
        rcases Option.some_inj.mp h with rfl
        exact ⟨0, w, rfl, hp, h100⟩
      next h100 =>
        rcases ih h with ⟨j, u, hj, hu, hv⟩
        exact ⟨j + 1, u, by simpa using hj, hu, hv⟩
    next hp =>
      rcases ih h with ⟨j, u, hj, hu, hv⟩
      exact ⟨j + 1, u, by simpa using hj, hu, hv⟩

lemma kwWindowHit_shift (w : List Char) (ws : List (List Char)) (v : Nat)
    (h : kwWindowHit ws v) : kwWindowHit (w :: ws) v := by
  rcases h with ⟨i, w', hi, hkw, j, u, hij, hj3, hj, hu, hv⟩
  exact ⟨i + 1, w', by simpa using hi, hkw,
    j + 1, u, by omega, by omega, by simpa using hj, hu, hv⟩

lemma scanWords_sound : ∀ (ws : List (List Char)) (v : Nat),
    scanWords ws = some v → kwWindowHit ws v ∨ bareHit ws v := by
  intro ws
  induction ws with
  | nil => intro v h; cases h
  | cons w rest ih =>
    intro v h
    rw [scanWords] at h
    split at h
    next a heq =>
      rcases Option.some_inj.mp h with rfl
      split at heq
      next hkw =>
        rcases firstWindowAmount_sound _ _ heq with ⟨j, u, hj, hu, hv⟩
        have hjlt : j < (rest.take 3).length := by
          by_contra hge
          rw [List.get?_eq_getElem?, List.getElem?_eq_none (by omega)] at hj
          cases hj
        have hj3 : j < 3 := lt_of_lt_of_le hjlt (by simp [List.length_take_le])
        have hj' : rest.get? j = some u := by
          rw [List.get?_eq_getElem?] at hj ⊢
          rw [← List.getElem?_take_of_lt hj3]
          exact hj
        exact Or.inl ⟨0, w, rfl, hkw, j + 1, u, by omega, by omega,
          by simpa using hj', hu, hv⟩
      next => cases heq
    next =>
      split at h
      next b hp =>
        split at h
        next hrange =>
          rcases Option.some_inj.mp h with rfl
          exact Or.inr ⟨w, List.mem_cons_self w rest, hp, hrange⟩
        next hrange =>
          rcases ih v h with h' | h'
          · exact Or.inl (kwWindowHit_shift w rest v h')
          · rcases h' with ⟨u, hu, rest'⟩
            exact Or.inr ⟨u, List.mem_cons_of_mem w hu, rest'⟩
      next hp =>
        rcases ih v h with h' | h'
        · exact Or.inl (kwWindowHit_shift w rest v h')
        · rcases h' with ⟨u, hu, rest'⟩
          exact Or.inr ⟨u, List.mem_cons_of_mem w hu, rest'⟩

/-- C8 (amended).  Tokenize on whitespace/`':'`/`'='`/`','`; a token is a
candidate number exactly when its ASCII-digit prefix parses as a `u64`;
a value is returned only if (a) a keyword token is followed within the
next 3 tokens by a candidate above 100, or (b) some token's candidate lies
strictly between 1000 and 1_000_000_000.  The scan is one left-to-right
pass: at each token the keyword-window check precedes the bare-number
check of that same token, and the first hit wins — so a keyword-adjacent
candidate beats the bare value only at the same token position, while an
earlier bare in-range token wins over a later keyword-adjacent one. -/
theorem extract_amount_from_log_semantics :
    (∀ (log : List Char) (v : Nat), extract_amount_from_log log = some v →
      kwWindowHit (splitWords log []) v ∨ bareHit (splitWords log []) v) ∧
    (∀ (w : List Char) (rest : List (List Char)) (a : Nat),
      containsKeyword w = true → firstWindowAmount (rest.take 3) = some a →
      scanWords (w :: rest) = some a) ∧
    (∀ (w : List Char) (rest : List (List Char)) (b : Nat),
      containsKeyword w = false → parse_possible_number w = some b →
      1000 < b → b < 1000000000 → scanWords (w :: rest) = some b) := by
  refine ⟨?_, ?_, ?_⟩
  · intro log v h
    exact scanWords_sound (splitWords log []) v h
  · intro w rest a hkw hw
    rw [scanWords, if_pos hkw, hw]
  · intro w rest b hkw hp h1 h2
    rw [scanWords, hkw]
    simp only [Bool.false_eq_true, if_false, hp]
    rw [if_pos ⟨h1, h2⟩]

/-- Witness for C8 at concrete log lines and token lists. -/
theorem extract_amount_from_log_semantics_witness :
    (kwWindowHit (splitWords "amount: 1500000".toList []) 1500000 ∨
      bareHit (splitWords "amount: 1500000".toList []) 1500000) ∧
    scanWords ["amount".toList, "200".toList] = some 200 ∧
    scanWords ["5000".toList] = some 5000 :=
  ⟨extract_amount_from_log_semantics.1 "amount: 1500000".toList 1500000 (by decide),
    extract_amount_from_log_semantics.2.1 "amount".toList ["200".toList] 200
      (by decide) (by decide),
    extract_amount_from_log_semantics.2.2 "5000".toList [] 5000
      (by decide) (by decide) (by decide) (by decide)⟩
